import Mathlib

/-!
Verification of the protomux-rpc-router middleware core.

The definitions below are a shallow embedding of the JavaScript sources:

* `src/lib/middleware.js` — `Middleware.NOOP` and `Middleware.compose`
  (`composePair` is the body of the `reduce` step, `compose` the fold);
* `src/index.js` — the router (`use`, `method`, `handleConnection`'s
  `rpc.respond` callback, `_open`, `_close`) and its stats counters;
* `src/lib/errors.js` — `ProtomuxRpcRouterError.aggregate`;
* `src/unnamed/part_004` — `RateLimitMiddleware` (`_tryAcquire`, `_refill`,
  `onrequest`);
* `src/unnamed/part_000` — `ConcurrentLimitMiddleware` (`_tryAcquire`,
  `_release`, `onrequest`);
* `src/unnamed/part_001` — the encoding middleware factory.

Side effects of middleware hooks are modelled as an explicit trace of
events threaded through every hook; thrown JavaScript errors are modelled
by an `Option`/`Except` result; the per-key JS `Map`s of the limiters are
modelled as functions into `Option`.
-/

namespace PRR

/-- Observable side effects of middleware hooks and the handler: `pre i` /
`post i` are the before/after effects of the request middleware labelled
`i`, `opened i` / `closed i` the effects of its lifecycle hooks. -/
inductive Ev where
  | pre (i : Nat)
  | post (i : Nat)
  | handler
  | opened (i : Nat)
  | closed (i : Nat)
  deriving DecidableEq, Repr

/-- A side-effect trace, in execution order. -/
abbrev Trace := List Ev

/-- JavaScript error values as the router observes them: a plain `Error`
(identified by a number), an error carrying only a `code`, an error with a
`code` and a `cause`, and `AggregateError` with its list of errors. -/
inductive JsError where
  | err (id : Nat)
  | coded (code : String)
  | wrapped (code : String) (cause : JsError)
  | agg (errors : List JsError)
  deriving Repr

/-- A middleware (src/lib/middleware.js): `onopen`/`onclose` extend the
trace and optionally throw; `onrequest` receives the trace so far and the
continuation `next`, which maps the trace at the point `next()` is called
to the trace after the inner part of the chain ran. -/
structure Mw where
  onopen : Trace → Trace × Option JsError
  onclose : Trace → Trace × Option JsError
  onrequest : Trace → (Trace → Trace) → Trace

/-- `Middleware.NOOP` (src/lib/middleware.js:4-10). -/
def Mw.NOOP : Mw where
  onopen := fun t => (t, none)
  onclose := fun t => (t, none)
  onrequest := fun t next => next t

/-- One step of the `reduce` inside `Middleware.compose`
(src/lib/middleware.js:12-41): `onopen` runs `acc` then `middleware`,
rolling `acc` back (its close errors swallowed by `safetyCatch`) when
`middleware.onopen` throws; `onclose` runs `middleware` first, remembering
its error, then `acc` with errors swallowed, and rethrows only the
remembered error; `onrequest` nests `middleware` inside `acc`. -/
def composePair (acc middleware : Mw) : Mw where
  onopen := fun t =>
    match acc.onopen t with
    | (t1, some e) => (t1, some e)
    | (t1, none) =>
      match middleware.onopen t1 with
      | (t2, none) => (t2, none)
      | (t2, some e) => ((acc.onclose t2).1, some e)
  onclose := fun t =>
    let r1 := middleware.onclose t
    let r2 := acc.onclose r1.1
    (r2.1, r1.2)
  onrequest := fun t next =>
    acc.onrequest t (fun t2 => middleware.onrequest t2 next)

/-- `Middleware.compose(...middlewares)`: the fold of `composePair` over
the argument list starting from `Middleware.NOOP`. -/
def compose (middlewares : List Mw) : Mw :=
  middlewares.foldl composePair Mw.NOOP

/-- `Middleware.compose(a, b)` applied to exactly two arguments, as the
router does in `use` and `handleConnection`. -/
def compose2 (a b : Mw) : Mw :=
  compose [a, b]

/-- A concrete middleware labelled `i`: its `onrequest` records `pre i`
before and `post i` after `next`; `onopen` records `opened i` or throws
`openErr`; `onclose` records `closed i` and then throws `closeErr` if
set. -/
def mkMw (i : Nat) (openErr closeErr : Option JsError) : Mw where
  onopen := fun t =>
    match openErr with
    | none => (t ++ [Ev.opened i], none)
    | some e => (t, some e)
  onclose := fun t => (t ++ [Ev.closed i], closeErr)
  onrequest := fun t next => next (t ++ [Ev.pre i]) ++ [Ev.post i]

/-- A middleware whose hooks all succeed. -/
def effMw (i : Nat) : Mw :=
  mkMw i none none

/-- The global chain after `router.use(g₁)...use(gₖ)` (src/index.js:318-321,
starting from `Middleware.NOOP` in the constructor). -/
def globalChain (gs : List Mw) : Mw :=
  gs.foldl compose2 Mw.NOOP

/-- A registration's chain after `registration.use(m₁)...use(mⱼ)`
(src/index.js:224-227, starting from the `Middleware.NOOP` installed by
`router.method`). -/
def methodChain (ms : List Mw) : Mw :=
  ms.foldl compose2 Mw.NOOP

/-- The combined middleware built once per method in `handleConnection`
(src/index.js:284). -/
def combinedMiddleware (globalMw methodMw : Mw) : Mw :=
  compose2 globalMw methodMw

/-- The continuation passed to the combined middleware in `rpc.respond`:
running the decoded handler, observed here as the `handler` event. -/
def handlerNext : Trace → Trace :=
  fun t => t ++ [Ev.handler]

/-- The side-effect trace of dispatching one inbound request through the
router with global middlewares `gs` and method middlewares `ms`. -/
def dispatchTrace (gs ms : List Nat) : Trace :=
  (combinedMiddleware (globalChain (gs.map effMw)) (methodChain (ms.map effMw))).onrequest
    [] handlerNext

theorem chain_onrequest (ms : List Nat) (acc : Mw) (t : Trace) (next : Trace → Trace) :
    (List.foldl compose2 acc (ms.map effMw)).onrequest t next =
      acc.onrequest t (fun t2 => next (t2 ++ ms.map Ev.pre) ++ ms.reverse.map Ev.post) := by
  induction ms generalizing acc t next with
  | nil =>
    have h : (fun t2 => next (t2 ++ ([] : List Nat).map Ev.pre)
        ++ ([] : List Nat).reverse.map Ev.post) = next := by
      funext t2; simp
    simp [h]
  | cons g gs ih =>
    simp only [List.map_cons, List.foldl_cons]
    rw [ih]
    show (composePair (composePair Mw.NOOP acc) (effMw g)).onrequest t _ = _
    simp only [composePair, Mw.NOOP, effMw, mkMw]
    congr 1
    funext t2
    simp [List.append_assoc]

/-- C1: dispatching one request through the composed middleware yields the
onion trace `g₁.pre … gₖ.pre m₁.pre … mⱼ.pre handler mⱼ.post … m₁.post
gₖ.post … g₁.post`, and `compose(a, b).onrequest(ctx, next)` behaves as
`a.onrequest(ctx, () => b.onrequest(ctx, next))`. -/
theorem c1_onion_order (gs ms : List Nat) :
    dispatchTrace gs ms =
      gs.map Ev.pre ++ ms.map Ev.pre ++ [Ev.handler]
        ++ ms.reverse.map Ev.post ++ gs.reverse.map Ev.post ∧
    ∀ a b : Mw, ∀ t : Trace, ∀ next : Trace → Trace,
      (compose2 a b).onrequest t next = a.onrequest t (fun t2 => b.onrequest t2 next) := by
  constructor
  · show (compose2 _ _).onrequest [] handlerNext = _
    show (globalChain (gs.map effMw)).onrequest []
      (fun t2 => (methodChain (ms.map effMw)).onrequest t2 handlerNext) = _
    unfold globalChain methodChain
    rw [chain_onrequest]
    show (List.foldl compose2 Mw.NOOP (ms.map effMw)).onrequest
        ([] ++ gs.map Ev.pre) handlerNext ++ gs.reverse.map Ev.post = _
    rw [chain_onrequest]
    simp [Mw.NOOP, handlerNext, List.append_assoc]
  · intro a b t next
    rfl

/-- The list of errors a value contributes to `aggregate`
(src/lib/errors.js:36-47): an `AggregateError` is spliced, any other error
contributes itself. -/
def errorsOf : JsError → List JsError
  | .agg es => es
  | e => [e]

/-- `ProtomuxRpcRouterError.aggregate(acc, e)` as `_close` calls it: `acc`
is the aggregate so far (`null` at first), nested aggregates are
flattened, null errors dropped, order preserved. -/
def aggregate (acc : Option JsError) (e : JsError) : JsError :=
  .agg ((match acc with | none => [] | some a => errorsOf a) ++ errorsOf e)

/-- The registration loop of `_close` (src/index.js:368-374): close each
registration's chain in registration order, folding every thrown error
into the aggregate. -/
def closeRegs (regs : List Mw) (t : Trace) (aggErr : Option JsError) :
    Trace × Option JsError :=
  match regs with
  | [] => (t, aggErr)
  | r :: rest =>
    let res := r.onclose t
    closeRegs rest res.1
      (match res.2 with | none => aggErr | some e => some (aggregate aggErr e))

/-- `ProtomuxRpcRouter._close` (src/index.js:366-384): close every
registration chain, then the global chain, aggregating thrown errors; the
aggregate is raised at the end if non-empty. -/
def routerClose (globalMw : Mw) (regs : List Mw) (t : Trace) :
    Trace × Option JsError :=
  let r1 := closeRegs regs t none
  let r2 := globalMw.onclose r1.1
  (r2.1, match r2.2 with | none => r1.2 | some e => some (aggregate r1.2 e))

/-- The registration loop of `_open` (src/index.js:357-359): open each
registration's chain in registration order, the first failure propagating
with no rollback across registrations. -/
def openRegs (regs : List Mw) (t : Trace) : Trace × Option JsError :=
  match regs with
  | [] => (t, none)
  | r :: rest =>
    match r.onopen t with
    | (t1, some e) => (t1, some e)
    | (t1, none) => openRegs rest t1

/-- `ProtomuxRpcRouter._open` (src/index.js:353-360): open the global
chain, then every registration chain in registration order; a failure
propagates with no rollback across chains. -/
def routerOpen (globalMw : Mw) (regs : List Mw) (t : Trace) :
    Trace × Option JsError :=
  match globalMw.onopen t with
  | (t1, some e) => (t1, some e)
  | (t1, none) => openRegs regs t1

/-- C3: counterexample and code-bug evidence. Global chain
`[m1, m2, m3, m4]` where `m2.onclose` throws `err 1` and `m4.onclose`
throws `err 2` (the repository's own close-aggregation test): every
onclose hook runs exactly once in reverse order, but `close()` raises
`AggregateError([err 2])` — `m2`'s error was swallowed by the
`safetyCatch` in `Middleware.compose`'s `onclose` — not the
`AggregateError([err 2, err 1])` the claim (and the repository's test)
requires. -/
theorem c3_close_swallows_chain_errors :
    routerClose
        (globalChain [mkMw 1 none none, mkMw 2 none (some (JsError.err 1)),
          mkMw 3 none none, mkMw 4 none (some (JsError.err 2))]) [] []
      = ([Ev.closed 4, Ev.closed 3, Ev.closed 2, Ev.closed 1],
          some (JsError.agg [JsError.err 2])) ∧
    JsError.agg [JsError.err 2] ≠ JsError.agg [JsError.err 2, JsError.err 1] :=
  ⟨rfl, by simp⟩

/-- C4: counterexample. Global middleware `g₁` opens successfully, then
the single method registration's middleware fails to open: the surfaced
error is the original failure, but `g₁` — participant 1, already opened —
is never closed: the final trace contains no `closed` event at all,
while the claim requires `onclose` to run for participant 1. -/
theorem c4_counterexample :
    routerOpen (globalChain [effMw 1])
        [methodChain [mkMw 2 (some (JsError.err 7)) none]] []
      = ([Ev.opened 1], some (JsError.err 7)) ∧
    Ev.closed 1 ∉ ([Ev.opened 1] : Trace) :=
  ⟨rfl, by decide⟩

/-- `m.onopen` always succeeds, appending `os` to the trace. -/
def OpensTo (m : Mw) (os : Trace) : Prop :=
  ∀ t, m.onopen t = (t ++ os, none)

/-- `m.onclose` always succeeds, appending `cs` to the trace. -/
def ClosesTo (m : Mw) (cs : Trace) : Prop :=
  ∀ t, m.onclose t = (t ++ cs, none)

/-- `m.onopen` always throws `e`, appending `os` to the trace first. -/
def OpenFailsTo (m : Mw) (os : Trace) (e : JsError) : Prop :=
  ∀ t, m.onopen t = (t ++ os, some e)

theorem np_onopen (acc : Mw) (t : Trace) :
    (composePair Mw.NOOP acc).onopen t = acc.onopen t := by
  show (match acc.onopen t with
    | (t2, none) => (t2, none)
    | (t2, some e) => ((Mw.NOOP.onclose t2).1, some e)) = acc.onopen t
  rcases h : acc.onopen t with ⟨t1, e⟩
  cases e <;> rfl

theorem np_onclose (acc : Mw) (t : Trace) :
    (composePair Mw.NOOP acc).onclose t = acc.onclose t :=
  rfl

theorem opensTo_compose2_eff {acc : Mw} {os cs : Trace} (i : Nat)
    (ho : OpensTo acc os) (_hc : ClosesTo acc cs) :
    OpensTo (compose2 acc (effMw i)) (os ++ [Ev.opened i]) := by
  intro t
  show (composePair (composePair Mw.NOOP acc) (effMw i)).onopen t = _
  show (match (composePair Mw.NOOP acc).onopen t with
    | (t1, some e) => (t1, some e)
    | (t1, none) =>
      match (effMw i).onopen t1 with
      | (t2, none) => (t2, none)
      | (t2, some e) => (((composePair Mw.NOOP acc).onclose t2).1, some e)) = _
  rw [np_onopen, ho t]
  simp [effMw, mkMw, List.append_assoc]

theorem closesTo_compose2_eff {acc : Mw} {cs : Trace} (i : Nat)
    (hc : ClosesTo acc cs) :
    ClosesTo (compose2 acc (effMw i)) (Ev.closed i :: cs) := by
  intro t
  show (composePair (composePair Mw.NOOP acc) (effMw i)).onclose t = _
  show ((((composePair Mw.NOOP acc)).onclose ((effMw i).onclose t).1).1,
      ((effMw i).onclose t).2) = _
  rw [np_onclose]
  show ((acc.onclose (t ++ [Ev.closed i])).1, none) = _
  rw [hc]
  simp

theorem chain_lifecycle (ls : List Nat) (acc : Mw) (os cs : Trace)
    (ho : OpensTo acc os) (hc : ClosesTo acc cs) :
    OpensTo (List.foldl compose2 acc (ls.map effMw)) (os ++ ls.map Ev.opened) ∧
    ClosesTo (List.foldl compose2 acc (ls.map effMw)) (ls.reverse.map Ev.closed ++ cs) := by
  induction ls generalizing acc os cs with
  | nil => simpa using ⟨ho, hc⟩
  | cons i ls ih =>
    simp only [List.map_cons, List.foldl_cons]
    have h := ih (compose2 acc (effMw i)) (os ++ [Ev.opened i]) (Ev.closed i :: cs)
      (opensTo_compose2_eff i ho hc) (closesTo_compose2_eff i hc)
    constructor
    · have := h.1
      simpa [List.append_assoc] using this
    · have := h.2
      simpa [List.append_assoc] using this

theorem noop_opensTo : OpensTo Mw.NOOP [] := by
  intro t; simp [Mw.NOOP]

theorem noop_closesTo : ClosesTo Mw.NOOP [] := by
  intro t; simp [Mw.NOOP]

/-- A middleware whose `onopen` throws `e` (recording nothing), as in the
repository's open-failure test. -/
def badOpenMw (e : JsError) : Mw :=
  mkMw 0 (some e) none

theorem openFailsTo_compose2_bad {acc : Mw} {os cs : Trace} (e : JsError)
    (ho : OpensTo acc os) (hc : ClosesTo acc cs) :
    OpenFailsTo (compose2 acc (badOpenMw e)) (os ++ cs) e := by
  intro t
  show (match (composePair Mw.NOOP acc).onopen t with
    | (t1, some e') => (t1, some e')
    | (t1, none) =>
      match (badOpenMw e).onopen t1 with
      | (t2, none) => (t2, none)
      | (t2, some e') => (((composePair Mw.NOOP acc).onclose t2).1, some e')) = _
  rw [np_onopen, ho t]
  show (((composePair Mw.NOOP acc).onclose (t ++ os)).1, some e) = _
  rw [np_onclose, hc]
  simp [List.append_assoc]

theorem openFailsTo_compose2_eff {acc : Mw} {os : Trace} {e : JsError} (i : Nat)
    (hf : OpenFailsTo acc os e) :
    OpenFailsTo (compose2 acc (effMw i)) os e := by
  intro t
  show (match (composePair Mw.NOOP acc).onopen t with
    | (t1, some e') => (t1, some e')
    | (t1, none) =>
      match (effMw i).onopen t1 with
      | (t2, none) => (t2, none)
      | (t2, some e') => (((composePair Mw.NOOP acc).onclose t2).1, some e')) = _
  rw [np_onopen, hf t]

theorem openFailsTo_foldl_eff {acc : Mw} {os : Trace} {e : JsError} (ls : List Nat)
    (hf : OpenFailsTo acc os e) :
    OpenFailsTo (List.foldl compose2 acc (ls.map effMw)) os e := by
  induction ls generalizing acc with
  | nil => exact hf
  | cons i ls ih =>
    simp only [List.map_cons, List.foldl_cons]
    exact ih (openFailsTo_compose2_eff i hf)

/-- The chain of a registration whose middlewares `ms1` open fine, then
one fails its `onopen` with `e`, followed by middlewares `ms2`. -/
theorem failing_chain_onopen (ms1 ms2 : List Nat) (e : JsError) :
    OpenFailsTo
      (methodChain (ms1.map effMw ++ badOpenMw e :: ms2.map effMw))
      (ms1.map Ev.opened ++ ms1.reverse.map Ev.closed) e := by
  unfold methodChain
  rw [List.foldl_append, List.foldl_cons]
  have h := chain_lifecycle ms1 Mw.NOOP [] [] noop_opensTo noop_closesTo
  have hfail := openFailsTo_compose2_bad e h.1 h.2
  have hfail2 : OpenFailsTo
      (compose2 (List.foldl compose2 Mw.NOOP (ms1.map effMw)) (badOpenMw e))
      (ms1.map Ev.opened ++ ms1.reverse.map Ev.closed) e := by
    simpa using hfail
  have := openFailsTo_foldl_eff ms2 hfail2
  simpa using this

theorem openRegs_good_cons {r : Mw} {os : Trace} (rest : List Mw) (t : Trace)
    (ho : OpensTo r os) :
    openRegs (r :: rest) t = openRegs rest (t ++ os) := by
  show (match r.onopen t with
    | (t1, some e) => (t1, some e)
    | (t1, none) => openRegs rest t1) = _
  rw [ho t]

theorem openRegs_fail_cons {r : Mw} {os : Trace} {e : JsError} (rest : List Mw) (t : Trace)
    (hf : OpenFailsTo r os e) :
    openRegs (r :: rest) t = (t ++ os, some e) := by
  show (match r.onopen t with
    | (t1, some e') => (t1, some e')
    | (t1, none) => openRegs rest t1) = _
  rw [hf t]

theorem openRegs_good_chains (regsA : List (List Nat)) (rest : List Mw) (t : Trace) :
    openRegs (regsA.map (fun ls => methodChain (ls.map effMw)) ++ rest) t
      = openRegs rest (t ++ (regsA.map (fun ls => ls.map Ev.opened)).flatten) := by
  induction regsA generalizing t with
  | nil => simp
  | cons ls regsA ih =>
    simp only [List.map_cons, List.cons_append, List.flatten]
    rw [openRegs_good_cons _ t (by
      have h := chain_lifecycle ls Mw.NOOP [] [] noop_opensTo noop_closesTo
      simpa [methodChain] using h.1)]
    rw [ih]
    simp [List.append_assoc]

/-- C4 (amended): rollback is per composed chain. With global middlewares
`gs`, earlier registrations `regsA` (all opening fine), then a
registration whose chain is `ms1` (opening fine) followed by a middleware
whose `onopen` throws `e` and further middlewares `ms2`, then later
registrations `regsB`: `_open` opens `gs`, all of `regsA`, and `ms1`,
then closes exactly `ms1` in reverse (the failing chain's already-opened
prefix), surfaces `e`, runs no later `onopen`, and closes nothing in the
global chain or in other registrations. -/
theorem c4_amended_per_chain_rollback (gs ms1 ms2 : List Nat)
    (regsA regsB : List (List Nat)) (e : JsError) :
    routerOpen (globalChain (gs.map effMw))
        (regsA.map (fun ls => methodChain (ls.map effMw))
          ++ methodChain (ms1.map effMw ++ badOpenMw e :: ms2.map effMw)
            :: regsB.map (fun ls => methodChain (ls.map effMw))) []
      = (gs.map Ev.opened ++ (regsA.map (fun ls => ls.map Ev.opened)).flatten
          ++ ms1.map Ev.opened ++ ms1.reverse.map Ev.closed, some e) := by
  have hg := chain_lifecycle gs Mw.NOOP [] [] noop_opensTo noop_closesTo
  show (match (globalChain (gs.map effMw)).onopen [] with
    | (t1, some e') => (t1, some e')
    | (t1, none) => openRegs _ t1) = _
  have hg1 : (globalChain (gs.map effMw)).onopen [] = (gs.map Ev.opened, none) := by
    have := hg.1 []
    simpa [globalChain] using this
  rw [hg1]
  show openRegs _ (gs.map Ev.opened) = _
  rw [openRegs_good_chains]
  rw [openRegs_fail_cons _ _ (failing_chain_onopen ms1 ms2 e)]
  simp [List.append_assoc]

/-- The router's stats counters (src/index.js:259-263). -/
structure Stats where
  nrRequests : Nat
  nrErrors : Nat
  nrHandlerErrors : Nat
  deriving DecidableEq, Repr

/-- The body of the inner callback passed as `next` to the combined chain
in `rpc.respond` (src/index.js:296-299): decode the request, run the
handler on the decoded value, encode the result; the first failure
propagates. -/
def innerBody {B V R W : Type} (dec : B → Except JsError V)
    (handler : V → Except JsError R) (enc : R → Except JsError W)
    (value : B) : Except JsError W :=
  match dec value with
  | .error e => .error e
  | .ok v =>
    match handler v with
    | .error e => .error e
    | .ok r => enc r

/-- The inner callback of `rpc.respond` (src/index.js:294-304): run
`innerBody` and, when it throws, increment `nrHandlerErrors` and
rethrow — the catch covers decode, handler and encode alike. -/
def innerRun {B V R W : Type} (dec : B → Except JsError V)
    (handler : V → Except JsError R) (enc : R → Except JsError W)
    (value : B) (st : Stats) : Stats × Except JsError W :=
  match innerBody dec handler enc value with
  | .ok w => (st, .ok w)
  | .error e => ({ st with nrHandlerErrors := st.nrHandlerErrors + 1 }, .error e)

/-- What a user middleware may do around `next()`: throw before calling
it, pass through, call it and throw afterwards, call it and swallow its
failure, or answer without calling it. -/
inductive MwBehavior (W : Type) where
  | failBefore (e : JsError)
  | passThrough
  | failAfter (e : JsError)
  | recover (w : W)
  | skip (w : W)

/-- A composed middleware chain as the router builds it: behaviours
combined by `Middleware.compose`'s nesting. -/
inductive MwProg (W : Type) where
  | noop
  | prim (b : MwBehavior W)
  | comp (p q : MwProg W)

/-- Run a middleware program against a continuation threading the stats
state; `comp p q` nests `q` inside `p` exactly as
`acc.onrequest(ctx, () => middleware.onrequest(ctx, next))` does. -/
def runMw {W : Type} : MwProg W → (Stats → Stats × Except JsError W) →
    Stats → Stats × Except JsError W
  | .noop, next, st => next st
  | .comp p q, next, st => runMw p (fun st2 => runMw q next st2) st
  | .prim (.failBefore e), _, st => (st, .error e)
  | .prim .passThrough, next, st => next st
  | .prim (.failAfter e), next, st =>
    match next st with
    | (st2, .ok _) => (st2, .error e)
    | (st2, .error e2) => (st2, .error e2)
  | .prim (.recover w), next, st =>
    match next st with
    | (st2, .ok w2) => (st2, .ok w2)
    | (st2, .error _) => (st2, .ok w)
  | .prim (.skip w), _, st => (st, .ok w)

/-- Whether a middleware program invokes its continuation. -/
def callsNext {W : Type} : MwProg W → Bool
  | .noop => true
  | .comp p q => callsNext p && callsNext q
  | .prim (.failBefore _) => false
  | .prim .passThrough => true
  | .prim (.failAfter _) => true
  | .prim (.recover _) => true
  | .prim (.skip _) => false

/-- The result a middleware program surfaces, given the result its
continuation would produce. -/
def mwResult {W : Type} : MwProg W → Except JsError W → Except JsError W
  | .noop, r => r
  | .comp p q, r => mwResult p (mwResult q r)
  | .prim (.failBefore e), _ => .error e
  | .prim .passThrough, r => r
  | .prim (.failAfter e), r =>
    match r with
    | .ok _ => .error e
    | .error e2 => .error e2
  | .prim (.recover w), r =>
    match r with
    | .ok w2 => .ok w2
    | .error _ => .ok w
  | .prim (.skip w), _ => .ok w

/-- Add `d` to the handler-error counter. -/
def bumpHandlerErrors (st : Stats) (d : Nat) : Stats :=
  { st with nrHandlerErrors := st.nrHandlerErrors + d }

/-- Whether an `Except` result is a thrown error. -/
def isErr {W : Type} : Except JsError W → Bool
  | .error _ => true
  | .ok _ => false

/-- The full `rpc.respond` callback (src/index.js:286-309): increment
`nrRequests`, run the combined middleware around the inner callback, and
on any failure leaving the chain increment `nrErrors` and rethrow. -/
def dispatch {B V R W : Type} (prog : MwProg W) (dec : B → Except JsError V)
    (handler : V → Except JsError R) (enc : R → Except JsError W)
    (value : B) (st : Stats) : Stats × Except JsError W :=
  match runMw prog (innerRun dec handler enc value)
      { st with nrRequests := st.nrRequests + 1 } with
  | (st2, .ok w) => (st2, .ok w)
  | (st2, .error e) => ({ st2 with nrErrors := st2.nrErrors + 1 }, .error e)

theorem innerRun_spec {B V R W : Type} (dec : B → Except JsError V)
    (handler : V → Except JsError R) (enc : R → Except JsError W) (value : B)
    (st : Stats) :
    innerRun dec handler enc value st
      = (bumpHandlerErrors st (if isErr (innerBody dec handler enc value) then 1 else 0),
          innerBody dec handler enc value) := by
  unfold innerRun
  rcases h : innerBody dec handler enc value with e | w <;>
    simp [h, isErr, bumpHandlerErrors]

theorem runMw_spec {W : Type} (prog : MwProg W) (d : Nat) (r0 : Except JsError W)
    (next : Stats → Stats × Except JsError W)
    (hnext : ∀ st, next st = (bumpHandlerErrors st d, r0)) (st : Stats) :
    runMw prog next st
      = (bumpHandlerErrors st (if callsNext prog then d else 0), mwResult prog r0) := by
  induction prog generalizing d r0 next st with
  | noop => simp [runMw, callsNext, mwResult, hnext]
  | prim b =>
    cases b with
    | failBefore e => simp [runMw, callsNext, mwResult, bumpHandlerErrors]
    | passThrough => simp [runMw, callsNext, mwResult, hnext]
    | failAfter e =>
      rcases r0 with e2 | w <;> simp [runMw, callsNext, mwResult, hnext]
    | recover w =>
      rcases r0 with e2 | w2 <;> simp [runMw, callsNext, mwResult, hnext]
    | skip w => simp [runMw, callsNext, mwResult, bumpHandlerErrors]
  | comp p q ihp ihq =>
    have hq : ∀ st2, runMw q next st2
        = (bumpHandlerErrors st2 (if callsNext q then d else 0), mwResult q r0) :=
      fun st2 => ihq d r0 next hnext st2
    have hp := ihp (if callsNext q then d else 0) (mwResult q r0)
      (fun st2 => runMw q next st2) hq st
    show runMw p (fun st2 => runMw q next st2) st = _
    rw [hp]
    cases hcp : callsNext p <;> cases hcq : callsNext q <;>
      simp [callsNext, mwResult, hcp, hcq]

/-- C2 (amended): for every middleware program, decoder, handler, encoder
and starting counters, one dispatch increments `nrRequests` by one;
`nrHandlerErrors` increments exactly when the inner callback was reached
and its body — request decoding, the handler, or response encoding —
failed (middleware failures never increment it); `nrErrors` increments
exactly when a failure leaves the chain, and the surfaced result is the
chain's. -/
theorem c2_stats_accounting {B V R W : Type} (prog : MwProg W)
    (dec : B → Except JsError V) (handler : V → Except JsError R)
    (enc : R → Except JsError W) (value : B) (st : Stats) :
    (dispatch prog dec handler enc value st).1.nrHandlerErrors
        = st.nrHandlerErrors
          + (if (callsNext prog && isErr (innerBody dec handler enc value)) = true
              then 1 else 0) ∧
    (dispatch prog dec handler enc value st).1.nrErrors
        = st.nrErrors
          + (if isErr (mwResult prog (innerBody dec handler enc value)) = true
              then 1 else 0) ∧
    (dispatch prog dec handler enc value st).1.nrRequests = st.nrRequests + 1 ∧
    (dispatch prog dec handler enc value st).2
        = mwResult prog (innerBody dec handler enc value) := by
  have hrun := runMw_spec prog
    (if isErr (innerBody dec handler enc value) then 1 else 0)
    (innerBody dec handler enc value)
    (innerRun dec handler enc value)
    (innerRun_spec dec handler enc value)
    { st with nrRequests := st.nrRequests + 1 }
  unfold dispatch
  rw [hrun]
  rcases hmr : mwResult prog (innerBody dec handler enc value) with e | w <;>
    cases hcp : callsNext prog <;>
      cases hib : isErr (innerBody dec handler enc value) <;>
        simp [bumpHandlerErrors, hmr, hcp, hib, isErr]

/-- C2: counterexample. A request whose decoder throws `err 3` (handler
and encoder total, no middleware): the failure originated in decoding,
not in the handler, yet `nrHandlerErrors` is incremented to 1 — the claim
requires it to stay 0. -/
theorem c2_counterexample_decode_failure_counted :
    dispatch (MwProg.noop : MwProg Nat) (fun _ : Nat => Except.error (JsError.err 3))
        (fun v : Nat => Except.ok v) (fun r : Nat => Except.ok r) 0
        { nrRequests := 0, nrErrors := 0, nrHandlerErrors := 0 }
      = ({ nrRequests := 1, nrErrors := 1, nrHandlerErrors := 1 },
          Except.error (JsError.err 3)) ∧
    (dispatch (MwProg.noop : MwProg Nat) (fun _ : Nat => Except.error (JsError.err 3))
        (fun v : Nat => Except.ok v) (fun r : Nat => Except.ok r) 0
        { nrRequests := 0, nrErrors := 0, nrHandlerErrors := 0 }).1.nrHandlerErrors ≠ 0 :=
  ⟨rfl, by decide⟩

/-- The proposition that a JS error is a wrapper with the given `code`
around some cause. -/
def IsCodeWrapped (code : String) : JsError → Prop
  | .wrapped c _ => c = code
  | _ => False

/-- The encoding middleware's `onrequest` (src/unnamed/part_001:35-49):
optionally decode `ctx.value`, run `next` on the decoded value, optionally
encode the result; codec failures propagate as thrown, unwrapped. -/
def encodingOnrequest {B : Type} (requestEncoding : Option (B → Except JsError B))
    (responseEncoding : Option (B → Except JsError B)) (value : B)
    (next : B → Except JsError B) : Except JsError B :=
  match (match requestEncoding with | none => Except.ok value | some d => d value) with
  | .error e => .error e
  | .ok v =>
    match next v with
    | .error e => .error e
    | .ok res =>
      match responseEncoding with
      | none => .ok res
      | some enc => enc res

/-- C5: code-bug evidence. When the request decoder throws `err 5` the
error surfaced to the transport is `err 5` itself, which is not a
`DECODE_ERROR` wrapper; when the response encoder throws `err 6` the
surfaced error is `err 6`, not an `ENCODE_ERROR` wrapper; the encoding
middleware likewise surfaces the raw decode failure. No wrapping exists
anywhere in the dispatch path. -/
theorem c5_codec_errors_not_wrapped :
    (dispatch (MwProg.noop : MwProg Nat) (fun _ : Nat => Except.error (JsError.err 5))
        (fun v : Nat => Except.ok v) (fun r : Nat => Except.ok r) 0
        { nrRequests := 0, nrErrors := 0, nrHandlerErrors := 0 }).2
      = Except.error (JsError.err 5) ∧
    ¬ IsCodeWrapped "DECODE_ERROR" (JsError.err 5) ∧
    (dispatch (MwProg.noop : MwProg Nat) (fun v : Nat => Except.ok v)
        (fun v : Nat => Except.ok v) (fun _ : Nat => Except.error (JsError.err 6)) 0
        { nrRequests := 0, nrErrors := 0, nrHandlerErrors := 0 }).2
      = Except.error (JsError.err 6) ∧
    ¬ IsCodeWrapped "ENCODE_ERROR" (JsError.err 6) ∧
    encodingOnrequest (some (fun _ : Nat => Except.error (JsError.err 5))) none 0
        (fun v : Nat => Except.ok v)
      = Except.error (JsError.err 5) :=
  ⟨rfl, fun h => h, rfl, fun h => h, rfl⟩

/-- `RateLimitMiddleware` state (src/unnamed/part_004:38-48): the per-key
token map (`Map.get` returning `undefined` is `none`), the bucket
capacity, and the destroyed flag. Keys are strings (remote host or
base64 public key). -/
structure RateLimitState where
  tokenMap : String → Option Nat
  capacity : Nat
  destroyed : Bool

/-- `this._tokenMap.set(key, v)`. -/
def rlSet (s : RateLimitState) (key : String) (v : Nat) : RateLimitState :=
  { s with tokenMap := fun k => if k = key then some v else s.tokenMap k }

/-- `_tryAcquire(key)` (src/unnamed/part_004:62-74): tokens default to
`capacity` for an absent key; a positive count is decremented and stored
(admitting), zero rejects without touching the map. -/
def rlTryAcquire (s : RateLimitState) (key : String) : Bool × RateLimitState :=
  let tokens := (s.tokenMap key).getD s.capacity
  if tokens > 0 then (true, rlSet s key (tokens - 1)) else (false, s)

/-- One tick of `_refill()` (src/unnamed/part_004:50-60): every resident
key gains one token; a key reaching `capacity` is deleted. -/
def rlRefill (s : RateLimitState) : RateLimitState :=
  { s with tokenMap := fun k =>
      match s.tokenMap k with
      | none => none
      | some t => if t + 1 ≥ s.capacity then none else some (t + 1) }

/-- `n` refill ticks (the `setInterval` firing `n` times with no requests
in between). -/
def rlRefillN (s : RateLimitState) : Nat → RateLimitState
  | 0 => s
  | n + 1 => rlRefill (rlRefillN s n)

/-- `onrequest` of the rate-limit middleware (src/unnamed/part_004:84-93):
reject when destroyed, reject with `RATE_LIMIT_EXCEEDED` when no token is
available, otherwise return `next()`'s result unchanged — no token is
released afterwards. The Bool records whether `next` was invoked. -/
def rlOnrequest {W : Type} (s : RateLimitState) (key : String)
    (nextRes : Except JsError W) : (Except JsError W × Bool) × RateLimitState :=
  if s.destroyed then
    ((.error (.coded "RATE_LIMIT_MIDDLEWARE_DESTROYED"), false), s)
  else
    match rlTryAcquire s key with
    | (false, s1) => ((.error (.coded "RATE_LIMIT_EXCEEDED"), false), s1)
    | (true, s1) => ((nextRes, true), s1)

/-- The state after `i` consecutive `onrequest`s for `key`. -/
def rlRun {W : Type} (s : RateLimitState) (key : String)
    (nextRes : Except JsError W) : Nat → RateLimitState
  | 0 => s
  | n + 1 => (rlOnrequest (rlRun s key nextRes n) key nextRes).2

theorem rlOnrequest_spec {W : Type} (s1 : RateLimitState) (key : String)
    (nextRes : Except JsError W) (hd : s1.destroyed = false) :
    rlOnrequest s1 key nextRes
      = if (s1.tokenMap key).getD s1.capacity > 0 then
          ((nextRes, true), rlSet s1 key ((s1.tokenMap key).getD s1.capacity - 1))
        else ((.error (.coded "RATE_LIMIT_EXCEEDED"), false), s1) := by
  rw [rlOnrequest, rlTryAcquire, hd]
  by_cases h : (s1.tokenMap key).getD s1.capacity > 0 <;> simp [h]

theorem rlRun_spec {W : Type} (s : RateLimitState) (key : String)
    (nextRes : Except JsError W) (hq : s.tokenMap key = none)
    (hd : s.destroyed = false) (i : Nat) :
    (rlRun s key nextRes i).destroyed = false ∧
    (rlRun s key nextRes i).capacity = s.capacity ∧
    ((rlRun s key nextRes i).tokenMap key).getD s.capacity = s.capacity - i := by
  induction i with
  | zero =>
    refine ⟨hd, rfl, ?_⟩
    show (s.tokenMap key).getD s.capacity = s.capacity - 0
    rw [hq]
    rfl
  | succ i ih =>
    obtain ⟨ihd, ihc, iht⟩ := ih
    simp only [rlRun]
    rw [rlOnrequest_spec _ _ _ ihd, ihc, iht]
    by_cases hpos : s.capacity - i > 0
    · rw [if_pos hpos]
      refine ⟨ihd, ihc, ?_⟩
      simp [rlSet]
      omega
    · rw [if_neg hpos]
      refine ⟨ihd, ihc, ?_⟩
      rw [iht]
      omega

/-- C6: from a quiescent state (the key absent, the middleware not
destroyed), the `i`-th consecutive request for that key is admitted —
`next` is invoked and its result passed through — exactly when
`i < capacity`, and is otherwise rejected with `RATE_LIMIT_EXCEEDED`
without invoking `next`; in particular the `(capacity+1)`-th request is
rejected. The token count after `i` requests is `capacity - i`: spent
tokens are never released by a request. -/
theorem c6_rate_limit_capacity {W : Type} (s : RateLimitState) (key : String)
    (nextRes : Except JsError W) (hq : s.tokenMap key = none)
    (hd : s.destroyed = false) :
    (∀ i : Nat, (rlOnrequest (rlRun s key nextRes i) key nextRes).1
      = if i < s.capacity then (nextRes, true)
        else (Except.error (JsError.coded "RATE_LIMIT_EXCEEDED"), false)) ∧
    ∀ i : Nat, ((rlRun s key nextRes i).tokenMap key).getD s.capacity
      = s.capacity - i := by
  constructor
  · intro i
    obtain ⟨ihd, ihc, iht⟩ := rlRun_spec s key nextRes hq hd i
    rw [rlOnrequest_spec _ _ _ ihd, ihc, iht]
    by_cases hlt : i < s.capacity
    · rw [if_pos (by omega : s.capacity - i > 0), if_pos hlt]
    · rw [if_neg (by omega : ¬s.capacity - i > 0), if_neg hlt]
  · intro i
    exact (rlRun_spec s key nextRes hq hd i).2.2

/-- A quiescent rate-limit state with capacity 2. -/
def quiescentRL : RateLimitState where
  tokenMap := fun _ => none
  capacity := 2
  destroyed := false

theorem c6_rate_limit_capacity_witness :
    quiescentRL.tokenMap "k" = none ∧ quiescentRL.destroyed = false ∧
    ((∀ i : Nat,
      (rlOnrequest (rlRun quiescentRL "k" (Except.ok (0 : Nat)) i) "k"
          (Except.ok (0 : Nat))).1
        = if i < quiescentRL.capacity then (Except.ok 0, true)
          else (Except.error (JsError.coded "RATE_LIMIT_EXCEEDED"), false)) ∧
    ∀ i : Nat,
      ((rlRun quiescentRL "k" (Except.ok (0 : Nat)) i).tokenMap "k").getD
          quiescentRL.capacity
        = quiescentRL.capacity - i) :=
  ⟨rfl, rfl, c6_rate_limit_capacity quiescentRL "k" (Except.ok 0) rfl rfl⟩

/-- The resident-key invariant of the rate limiter: every resident key
holds strictly fewer than `capacity` tokens (a full key is absent). -/
def RLInv (s : RateLimitState) : Prop :=
  ∀ k t, s.tokenMap k = some t → t < s.capacity

theorem rlRefill_tokenMap_none (s : RateLimitState) (k : String)
    (h : s.tokenMap k = none) : (rlRefill s).tokenMap k = none := by
  show (match s.tokenMap k with
    | none => none
    | some t => if t + 1 ≥ s.capacity then none else some (t + 1)) = none
  rw [h]

theorem rlRefill_tokenMap_some (s : RateLimitState) (k : String) (t0 : Nat)
    (h : s.tokenMap k = some t0) :
    (rlRefill s).tokenMap k
      = if t0 + 1 ≥ s.capacity then none else some (t0 + 1) := by
  show (match s.tokenMap k with
    | none => none
    | some t => if t + 1 ≥ s.capacity then none else some (t + 1)) = _
  rw [h]

theorem rlRefillN_capacity (s : RateLimitState) (n : Nat) :
    (rlRefillN s n).capacity = s.capacity := by
  induction n with
  | zero => rfl
  | succ n ih => exact ih

theorem rlRefillN_none (s : RateLimitState) (k : String) (hn : s.tokenMap k = none)
    (n : Nat) : (rlRefillN s n).tokenMap k = none := by
  induction n with
  | zero => exact hn
  | succ n ih =>
    show (rlRefill (rlRefillN s n)).tokenMap k = none
    exact rlRefill_tokenMap_none _ _ ih

theorem rlRefillN_tracks (s : RateLimitState) (k : String) (t : Nat)
    (hs : s.tokenMap k = some t) (ht : t < s.capacity) (n : Nat) :
    (rlRefillN s n).tokenMap k = none ∨
    ((rlRefillN s n).tokenMap k = some (t + n) ∧ t + n < s.capacity) := by
  induction n with
  | zero => exact Or.inr ⟨hs, ht⟩
  | succ n ih =>
    rcases ih with hnone | ⟨hsome, hlt⟩
    · exact Or.inl (rlRefill_tokenMap_none _ _ hnone)
    · simp only [rlRefillN]
      rw [rlRefill_tokenMap_some _ _ _ hsome]
      by_cases hge : t + n + 1 ≥ (rlRefillN s n).capacity
      · exact Or.inl (if_pos hge)
      · refine Or.inr ⟨by rw [if_neg hge]; exact congrArg some (by omega), ?_⟩
        rw [rlRefillN_capacity] at hge
        omega

/-- C7: the rate-limit engine's operations preserve the invariant
`0 ≤ tokens < capacity` for every resident key — `tryAcquire` for any
key and each refill tick — and from any state satisfying it, `capacity`
refill ticks with no intervening requests leave every key absent from
the map. -/
theorem c7_rate_limit_invariant (s : RateLimitState) (key : String)
    (hinv : RLInv s) :
    RLInv (rlTryAcquire s key).2 ∧ RLInv (rlRefill s) ∧
    ∀ k, (rlRefillN s s.capacity).tokenMap k = none := by
  refine ⟨?_, ?_, ?_⟩
  · rw [rlTryAcquire]
    by_cases hpos : (s.tokenMap key).getD s.capacity > 0
    · rw [if_pos hpos]
      intro k t hk
      simp only [rlSet] at hk ⊢
      by_cases hkey : k = key
      · rw [if_pos hkey] at hk
        have ht : t = (s.tokenMap key).getD s.capacity - 1 := by
          cases hk
          rfl
        rcases hres : s.tokenMap key with _ | t0
        · rw [hres] at ht hpos
          simp only [Option.getD_none] at ht hpos
          omega
        · have := hinv key t0 hres
          rw [hres] at ht
          simp only [Option.getD_some] at ht
          omega
      · rw [if_neg hkey] at hk
        exact hinv k t hk
    · rw [if_neg hpos]
      exact hinv
  · intro k t hk
    rcases hres : s.tokenMap k with _ | t0
    · rw [rlRefill_tokenMap_none s k hres] at hk
      exact absurd hk (by simp)
    · rw [rlRefill_tokenMap_some s k t0 hres] at hk
      by_cases hge : t0 + 1 ≥ s.capacity
      · rw [if_pos hge] at hk
        exact absurd hk (by simp)
      · rw [if_neg hge] at hk
        have ht : t0 + 1 = t := by injection hk
        show t < s.capacity
        omega
  · intro k
    rcases hres : s.tokenMap k with _ | t0
    · exact rlRefillN_none s k hres s.capacity
    · rcases rlRefillN_tracks s k t0 hres (hinv k t0 hres) s.capacity with
        hnone | ⟨_, hlt⟩
      · exact hnone
      · omega

theorem c7_rate_limit_invariant_witness :
    (∀ k t, quiescentRL.tokenMap k = some t → t < quiescentRL.capacity) ∧
    (RLInv (rlTryAcquire quiescentRL "k").2 ∧ RLInv (rlRefill quiescentRL) ∧
      ∀ k, (rlRefillN quiescentRL quiescentRL.capacity).tokenMap k = none) :=
  ⟨fun _ _ h => Option.noConfusion h,
    c7_rate_limit_invariant quiescentRL "k" (fun _ _ h => Option.noConfusion h)⟩

/-- `ConcurrentLimitMiddleware` state (src/unnamed/part_000:35-41): the
per-key active count (JS numbers, modelled as `Int`), the capacity, and
the destroyed flag. -/
structure ConcLimitState where
  activeMap : String → Option Int
  capacity : Int
  destroyed : Bool

/-- `this._activeMap.set(key, v)`. -/
def clMapSet (s : ConcLimitState) (key : String) (v : Int) : ConcLimitState :=
  { s with activeMap := fun k => if k = key then some v else s.activeMap k }

/-- `this._activeMap.delete(key)`. -/
def clMapDelete (s : ConcLimitState) (key : String) : ConcLimitState :=
  { s with activeMap := fun k => if k = key then none else s.activeMap k }

/-- `_tryAcquire(key)` (src/unnamed/part_000:57-69): the count defaults to
0 for an absent key; below capacity it is incremented and stored
(admitting), otherwise the call rejects without touching the map. -/
def clTryAcquire (s : ConcLimitState) (key : String) : Bool × ConcLimitState :=
  if (s.activeMap key).getD 0 < s.capacity then
    (true, clMapSet s key ((s.activeMap key).getD 0 + 1))
  else (false, s)

/-- `_release(key)` (src/unnamed/part_000:43-55): an absent key is
silently ignored; otherwise decrement, deleting the key when the count
reaches zero. -/
def clRelease (s : ConcLimitState) (key : String) : ConcLimitState :=
  match s.activeMap key with
  | none => s
  | some active =>
    if active - 1 = 0 then clMapDelete s key else clMapSet s key (active - 1)

/-- `onrequest` of the concurrent-limit middleware
(src/unnamed/part_000:79-92): reject when destroyed; reject with
`CONCURRENT_LIMIT_EXCEEDED` when `_tryAcquire` fails, calling neither
`next` nor `_release`; otherwise run `next` inside `try`/`finally`, so
`_release` runs whether `next` resolves or rejects. The Bool records
whether `next` was invoked. -/
def clOnrequest {W : Type} (s : ConcLimitState) (key : String)
    (nextRes : Except JsError W) : (Except JsError W × Bool) × ConcLimitState :=
  if s.destroyed then
    ((.error (.coded "CONCURRENT_LIMIT_MIDDLEWARE_DESTROYED"), false), s)
  else
    match clTryAcquire s key with
    | (false, s1) => ((.error (.coded "CONCURRENT_LIMIT_EXCEEDED"), false), s1)
    | (true, s1) => ((nextRes, true), clRelease s1 key)

/-- The resident-key invariant of the concurrency limiter: every resident
key holds an active count between 1 and `capacity`; an absent key means
0. -/
def CLInv (s : ConcLimitState) : Prop :=
  ∀ k a, s.activeMap k = some a → 1 ≤ a ∧ a ≤ s.capacity

theorem clRelease_none (s : ConcLimitState) (key : String)
    (h : s.activeMap key = none) : clRelease s key = s := by
  show (match s.activeMap key with
    | none => s
    | some active =>
      if active - 1 = 0 then clMapDelete s key else clMapSet s key (active - 1)) = s
  rw [h]

theorem clRelease_some (s : ConcLimitState) (key : String) (a : Int)
    (h : s.activeMap key = some a) :
    clRelease s key
      = if a - 1 = 0 then clMapDelete s key else clMapSet s key (a - 1) := by
  show (match s.activeMap key with
    | none => s
    | some active =>
      if active - 1 = 0 then clMapDelete s key else clMapSet s key (active - 1)) = _
  rw [h]

/-- C8: assuming `capacity ≥ 1`, both `tryAcquire` and `release` preserve
the invariant `1 ≤ active ≤ capacity` for every resident key (absent
meaning 0), and hence in every reachable state the active count of any
key — the number of in-flight `next` invocations it admits — is at most
`capacity`. -/
theorem c8_conc_limit_invariant (s : ConcLimitState) (key : String)
    (hcap : 1 ≤ s.capacity) (hinv : CLInv s) :
    CLInv (clTryAcquire s key).2 ∧ CLInv (clRelease s key) ∧
    ∀ k, (s.activeMap k).getD 0 ≤ s.capacity := by
  refine ⟨?_, ?_, ?_⟩
  · rw [clTryAcquire]
    by_cases hlt : (s.activeMap key).getD 0 < s.capacity
    · rw [if_pos hlt]
      intro k a hk
      simp only [clMapSet] at hk
      by_cases hkey : k = key
      · rw [if_pos hkey] at hk
        have ha : (s.activeMap key).getD 0 + 1 = a := by injection hk
        have hge : 0 ≤ (s.activeMap key).getD 0 := by
          rcases hres : s.activeMap key with _ | a0
          · simp
          · have := hinv key a0 hres
            simp only [Option.getD_some]
            omega
        refine ⟨by omega, ?_⟩
        show a ≤ s.capacity
        omega
      · rw [if_neg hkey] at hk
        exact hinv k a hk
    · rw [if_neg hlt]
      exact hinv
  · rcases hres : s.activeMap key with _ | a0
    · rw [clRelease_none s key hres]
      exact hinv
    · have h0 := hinv key a0 hres
      rw [clRelease_some s key a0 hres]
      by_cases hz : a0 - 1 = 0
      · rw [if_pos hz]
        intro k a hk
        simp only [clMapDelete] at hk
        by_cases hkey : k = key
        · rw [if_pos hkey] at hk
          exact absurd hk (by simp)
        · rw [if_neg hkey] at hk
          exact hinv k a hk
      · rw [if_neg hz]
        intro k a hk
        simp only [clMapSet] at hk
        by_cases hkey : k = key
        · rw [if_pos hkey] at hk
          have ha : a0 - 1 = a := by injection hk
          refine ⟨by omega, ?_⟩
          show a ≤ s.capacity
          omega
        · rw [if_neg hkey] at hk
          exact hinv k a hk
  · intro k
    rcases hres : s.activeMap k with _ | a0
    · simp [hres]
      omega
    · have := hinv k a0 hres
      simp [hres]
      omega

/-- A quiescent concurrency-limit state with capacity 1. -/
def quiescentCL : ConcLimitState where
  activeMap := fun _ => none
  capacity := 1
  destroyed := false

theorem c8_conc_limit_invariant_witness :
    1 ≤ quiescentCL.capacity ∧
    (∀ k a, quiescentCL.activeMap k = some a → 1 ≤ a ∧ a ≤ quiescentCL.capacity) ∧
    (CLInv (clTryAcquire quiescentCL "k").2 ∧ CLInv (clRelease quiescentCL "k") ∧
      ∀ k, (quiescentCL.activeMap k).getD 0 ≤ quiescentCL.capacity) :=
  ⟨le_refl 1, fun _ _ h => Option.noConfusion h,
    c8_conc_limit_invariant quiescentCL "k" (le_refl 1)
      (fun _ _ h => Option.noConfusion h)⟩

theorem clAcquireRelease_restores (s : ConcLimitState) (key : String)
    (hinv : CLInv s) :
    (clRelease (clMapSet s key ((s.activeMap key).getD 0 + 1)) key).activeMap key
      = s.activeMap key := by
  have hset : (clMapSet s key ((s.activeMap key).getD 0 + 1)).activeMap key
      = some ((s.activeMap key).getD 0 + 1) := by
    simp [clMapSet]
  rw [clRelease_some _ _ _ hset]
  rcases hres : s.activeMap key with _ | a0
  · rw [if_pos (by simp)]
    simp [clMapDelete, clMapSet]
  · have h0 := hinv key a0 hres
    rw [if_neg (by simp only [Option.getD_some]; omega)]
    simp only [clMapSet, Option.getD_some, if_pos rfl]
    exact congrArg some (by omega)

/-- C9: when the middleware is live and the invariant holds, an
`onrequest` admitted by `tryAcquire` invokes `next`, surfaces `next`'s
result whether it resolves or rejects, and releases afterwards, leaving
the key's active count exactly what it was before the call; a request
rejected at capacity surfaces `CONCURRENT_LIMIT_EXCEEDED`, does not
invoke `next`, performs no release and leaves the state untouched. -/
theorem c9_conc_limit_release {W : Type} (s : ConcLimitState) (key : String)
    (nextRes : Except JsError W) (hd : s.destroyed = false) (hinv : CLInv s) :
    (clOnrequest s key nextRes).2.activeMap key = s.activeMap key ∧
    (clOnrequest s key nextRes).1.2 = (clTryAcquire s key).1 ∧
    (clOnrequest s key nextRes).1.1
      = (if (clTryAcquire s key).1 = true then nextRes
          else Except.error (JsError.coded "CONCURRENT_LIMIT_EXCEEDED")) ∧
    (clOnrequest s key nextRes).2
      = (if (clTryAcquire s key).1 = true then clRelease (clTryAcquire s key).2 key
          else s) := by
  rw [clOnrequest, hd, if_neg Bool.false_ne_true, clTryAcquire]
  by_cases hlt : (s.activeMap key).getD 0 < s.capacity
  · rw [if_pos hlt]
    exact ⟨clAcquireRelease_restores s key hinv, rfl, by simp, rfl⟩
  · rw [if_neg hlt]
    exact ⟨rfl, rfl, by simp, by simp⟩

theorem c9_conc_limit_release_witness :
    quiescentCL.destroyed = false ∧
    (∀ k a, quiescentCL.activeMap k = some a → 1 ≤ a ∧ a ≤ quiescentCL.capacity) ∧
    ((clOnrequest quiescentCL "k" (Except.ok (0 : Nat))).2.activeMap "k"
        = quiescentCL.activeMap "k" ∧
      (clOnrequest quiescentCL "k" (Except.ok (0 : Nat))).1.2
        = (clTryAcquire quiescentCL "k").1 ∧
      (clOnrequest quiescentCL "k" (Except.ok (0 : Nat))).1.1
        = (if (clTryAcquire quiescentCL "k").1 = true then Except.ok 0
            else Except.error (JsError.coded "CONCURRENT_LIMIT_EXCEEDED")) ∧
      (clOnrequest quiescentCL "k" (Except.ok (0 : Nat))).2
        = (if (clTryAcquire quiescentCL "k").1 = true
            then clRelease (clTryAcquire quiescentCL "k").2 "k" else quiescentCL)) :=
  ⟨rfl, fun _ _ h => Option.noConfusion h,
    c9_conc_limit_release quiescentCL "k" (Except.ok 0) rfl
      (fun _ _ h => Option.noConfusion h)⟩

/-- A method registration as `router.method` builds it
(src/index.js:206-217, 334-348): the name, the normalized request and
response encodings, the middleware chain (labels; `[]` is the fresh
`Middleware.NOOP`), and the handler. `C` is the codec type, `H` the
handler type. -/
structure Registration (C H : Type) where
  method : String
  requestEncoding : C
  responseEncoding : C
  mwChain : List Nat
  handler : H

/-- `Map.set(key, v)` on the insertion-ordered JS `Map` backing
`this.methods`: replace the value of an existing key in place, otherwise
append. -/
def mapSet {A : Type} : List (String × A) → String → A → List (String × A)
  | [], key, v => [(key, v)]
  | (k, v0) :: rest, key, v =>
    if k = key then (key, v) :: rest else (k, v0) :: mapSet rest key v

/-- `Map.get(key)` on the same map. -/
def mapGet {A : Type} : List (String × A) → String → Option A
  | [], _ => none
  | (k, v) :: rest, key => if k = key then some v else mapGet rest key

/-- `router.method(method, options, handler)` (src/index.js:334-348):
missing `requestEncoding`/`responseEncoding` default to `cenc.raw`, and a
fresh registration carrying `Middleware.NOOP` and the handler is stored
with `this.methods.set`. -/
def routerMethod {C H : Type} (raw : C) (methods : List (String × Registration C H))
    (name : String) (reqEnc respEnc : Option C) (h : H) :
    List (String × Registration C H) :=
  mapSet methods name
    { method := name
      requestEncoding := reqEnc.getD raw
      responseEncoding := respEnc.getD raw
      mwChain := []
      handler := h }

/-- The responders `handleConnection` installs on a new connection
(src/index.js:283-310): one `rpc.respond` per methods-map entry,
dispatching to that entry's handler. -/
def respondersOf {C H : Type} (methods : List (String × Registration C H)) :
    List (String × H) :=
  methods.map fun p => (p.1, p.2.handler)

theorem mapGet_mapSet_self {A : Type} (m : List (String × A)) (key : String) (v : A) :
    mapGet (mapSet m key v) key = some v := by
  induction m with
  | nil => simp [mapSet, mapGet]
  | cons p rest ih =>
    rcases p with ⟨k, v0⟩
    by_cases hk : k = key
    · simp [mapSet, hk, mapGet]
    · simp [mapSet, hk, mapGet, ih]

theorem keys_mapSet {A : Type} (m : List (String × A)) (key : String) (v : A) :
    (mapSet m key v).map Prod.fst
      = if key ∈ m.map Prod.fst then m.map Prod.fst
        else m.map Prod.fst ++ [key] := by
  induction m with
  | nil => simp [mapSet]
  | cons p rest ih =>
    rcases p with ⟨k, v0⟩
    by_cases hk : k = key
    · subst hk
      simp [mapSet]
    · have hne : ¬ key = k := fun h => hk h.symm
      simp only [mapSet, if_neg hk, List.map_cons]
      rw [ih]
      by_cases hmem : key ∈ rest.map Prod.fst
      · rw [if_pos hmem, if_pos (by simp [hmem])]
      · rw [if_neg hmem, if_neg (by simp [hmem, hne])]
        simp

theorem nodup_keys_mapSet {A : Type} (m : List (String × A)) (key : String) (v : A)
    (hnd : (m.map Prod.fst).Nodup) : ((mapSet m key v).map Prod.fst).Nodup := by
  rw [keys_mapSet]
  by_cases hmem : key ∈ m.map Prod.fst
  · rw [if_pos hmem]
    exact hnd
  · rw [if_neg hmem]
    simp [List.nodup_append, hnd, hmem]

theorem count_keys_mapSet {A : Type} (m : List (String × A)) (key : String) (v : A)
    (hnd : (m.map Prod.fst).Nodup) :
    List.count key ((mapSet m key v).map Prod.fst) = 1 := by
  rw [keys_mapSet]
  by_cases hmem : key ∈ m.map Prod.fst
  · rw [if_pos hmem]
    exact List.count_eq_one_of_mem hnd hmem
  · rw [if_neg hmem]
    rw [List.count_append, List.count_eq_zero_of_not_mem hmem]
    simp

theorem mapGet_respondersOf {C H : Type} (m : List (String × Registration C H))
    (key : String) :
    mapGet (respondersOf m) key
      = Option.map (fun reg => reg.handler) (mapGet m key) := by
  induction m with
  | nil => rfl
  | cons p rest ih =>
    rcases p with ⟨k, reg⟩
    by_cases hk : k = key
    · simp [respondersOf, mapGet, hk]
    · simp only [respondersOf, List.map_cons, mapGet, if_neg hk]
      exact ih

/-- C10: calling `router.method` twice with the same name silently
replaces the earlier registration: the methods map keeps distinct names,
holds exactly one entry for the name — the new options (defaulted to the
raw codec), the fresh NOOP chain and the new handler — and the single
responder that `handleConnection` would install for that name on a
connection attached after the replacement dispatches the new handler,
never the old one. -/
theorem c10_method_replaces {C H : Type} (raw : C)
    (methods : List (String × Registration C H)) (name : String)
    (o1req o1resp o2req o2resp : Option C) (h1 h2 : H)
    (hnd : (methods.map Prod.fst).Nodup) :
    ((routerMethod raw (routerMethod raw methods name o1req o1resp h1)
        name o2req o2resp h2).map Prod.fst).Nodup ∧
    List.count name ((routerMethod raw (routerMethod raw methods name o1req o1resp h1)
        name o2req o2resp h2).map Prod.fst) = 1 ∧
    mapGet (routerMethod raw (routerMethod raw methods name o1req o1resp h1)
        name o2req o2resp h2) name
      = some ({ method := name, requestEncoding := o2req.getD raw,
                responseEncoding := o2resp.getD raw, mwChain := [], handler := h2 }) ∧
    mapGet (respondersOf (routerMethod raw (routerMethod raw methods name o1req o1resp h1)
        name o2req o2resp h2)) name = some h2 := by
  have hnd1 : (((routerMethod raw methods name o1req o1resp h1)).map Prod.fst).Nodup :=
    nodup_keys_mapSet methods name _ hnd
  refine ⟨nodup_keys_mapSet _ name _ hnd1, count_keys_mapSet _ name _ hnd1,
    mapGet_mapSet_self _ name _, ?_⟩
  rw [mapGet_respondersOf]
  rw [show mapGet (routerMethod raw (routerMethod raw methods name o1req o1resp h1)
      name o2req o2resp h2) name
    = some ({ method := name, requestEncoding := o2req.getD raw,
              responseEncoding := o2resp.getD raw, mwChain := ([] : List Nat),
              handler := h2 })
    from mapGet_mapSet_self _ name _]
  rfl

theorem c10_method_replaces_witness :
    ((([] : List (String × Registration Nat Nat)).map Prod.fst).Nodup) ∧
    (((routerMethod 0 (routerMethod 0 ([] : List (String × Registration Nat Nat))
        "echo" none none 1) "echo" none none 2).map Prod.fst).Nodup ∧
    List.count "echo" ((routerMethod 0 (routerMethod 0
        ([] : List (String × Registration Nat Nat)) "echo" none none 1)
        "echo" none none 2).map Prod.fst) = 1 ∧
    mapGet (routerMethod 0 (routerMethod 0 ([] : List (String × Registration Nat Nat))
        "echo" none none 1) "echo" none none 2) "echo"
      = some ({ method := "echo", requestEncoding := (none : Option Nat).getD 0,
                responseEncoding := (none : Option Nat).getD 0, mwChain := [],
                handler := 2 }) ∧
    mapGet (respondersOf (routerMethod 0 (routerMethod 0
        ([] : List (String × Registration Nat Nat)) "echo" none none 1)
        "echo" none none 2)) "echo" = some 2) :=
  ⟨List.nodup_nil, c10_method_replaces 0 [] "echo" none none none none 1 2 List.nodup_nil⟩

end PRR
